import Mathlib

/-!
Verification of the AI-Staff-Scheduler repository.

This file gives a shallow embedding, in Lean 4, of the deterministic parts of
the scheduler: the data model (src/scheduler/models.py), the validators
(src/scheduler/validators.py), the greedy allocation engine
(src/scheduler/core.py), the round-robin fallback and oracle-output parser
(src/scheduler/scheduler.py), the compliance-check fallback
(src/scheduler/lawyer.py), the review fallback (src/scheduler/reviewer.py)
and the response curation (src/scheduler/orchestrator.py), together with
theorems settling the specification claims about them.

Modelling conventions:
- Python unbounded integers used as counts, identifiers, category codes and
  capacities are modelled as Nat; time points (datetimes, which the code only
  compares) are modelled as Nat; confidence and quality scores (floats that
  the code only compares against the constants 0.5 and 0.7) are modelled as
  rationals.
- Python sets are modelled as lists used only through membership.
- Python dictionaries keyed by task id are modelled as association lists
  (the oracle suggestion dictionary is modelled as a function, since the code
  only reads it through `get` with a default).
- `sorted(xs, key=k)` is a stable sort; it is modelled by
  `List.insertionSort` with the non-strict lexicographic key order, which is
  the unique stable sort for that order.
- Code that can raise is modelled in `Except`; the exception classes that the
  embedded code can raise are the constructors of `PyError`.
-/

namespace StaffScheduler

/-- Exceptions relevant to the embedded code. `zeroDivisionError` is raised by
the Python `//` operator on a zero divisor; `stopIteration` is raised by
`next` on an exhausted iterator; `configurationError` is the error class that
the specification (section 7) prescribes for malformed task capacity data —
no code in the repository defines or raises it. -/
inductive PyError where
  | zeroDivisionError
  | stopIteration
  | configurationError
deriving Repr, DecidableEq

/-- Employee data model (src/scheduler/models.py, class Employee). -/
structure Employee where
  employee_id : Nat
  name : String
  preferences : List Nat := []
  certifications : List Nat := []
  previous_vacations_60_days : Nat := 0
  approved_requests_60_days : Nat := 0
  denied_requests_60_days : Nat := 0
  vacation_days_remaining : Nat := 0
  vacation_days_used : Nat := 0
  worked_nights : Nat := 0
  worked_weekends : Nat := 0
  worked_holidays : Nat := 0
deriving Repr, DecidableEq

/-- Task/Shift data model (src/scheduler/models.py, class Task); the start and
end instants are modelled as already-parsed time points. -/
structure Task where
  task_id : Nat
  category : Nat
  customer_capacity : Nat := 0
  required_capacity_per_staff : Nat := 1
  required_certifications : List Nat := []
  start : Nat
  «end» : Nat
deriving Repr, DecidableEq

/-- Single task assignment (src/scheduler/models.py, class Assignment). -/
structure Assignment where
  task_id : Nat
  employee_id : Nat
  employee_name : String
  confidence : ℚ := 1
deriving Repr, DecidableEq

/-- Batch-form assignment `(task_id, list of employee ids)` used by the greedy
engine (constructed in src/scheduler/core.py; the record itself is declared
outside src/, its fields are the ones the caller populates and the spec,
section 3, lists). -/
structure SchedAssignment where
  task_id : Nat
  employee_ids : List Nat
deriving Repr, DecidableEq

/-- Schedule returned by the greedy engine (constructed in
src/scheduler/core.py; declared outside src/). -/
structure Schedule where
  date : String
  assignments : List SchedAssignment
  explanations : List String
deriving Repr, DecidableEq

/-- Lawyer validation result (src/scheduler/models.py, class ValidationResult). -/
structure ValidationResult where
  is_valid : Bool
  violations : List String := []
  warnings : List String := []
  suggestions : List String := []
deriving Repr, DecidableEq

/-- Reviewer assessment (src/scheduler/models.py, class ReviewResult). -/
structure ReviewResult where
  approved : Bool
  quality_score : ℚ
  issues : List String := []
  improvements : List String := []
deriving Repr, DecidableEq

/-- API response model (src/scheduler/models.py, class ScheduleResponse).
Of the open `metadata` dictionary only the two keys that
`Orchestrator._curate_response` writes are modelled, as dedicated fields. -/
structure ScheduleResponse where
  assignments : List Assignment
  metadata_quality_score : ℚ
  metadata_review_approved : Bool
  warnings : List String := []
  success : Bool := true
deriving Repr, DecidableEq

/-- src/scheduler/validators.py, `has_required_certs`. -/
def has_required_certs (employee : Employee) (task : Task) : Bool :=
  task.required_certifications.all (fun cert => employee.certifications.contains cert)

/-- src/scheduler/validators.py, `needed_staff`.  The Python body is
`max(1, (customer_capacity + required_capacity_per_staff - 1) //
required_capacity_per_staff)` in the non-vacation branch; `//` with a zero
divisor raises `ZeroDivisionError`, hence the `Except`. -/
def needed_staff (task : Task) : Except PyError Nat :=
  if task.customer_capacity = 0 then
    .ok task.required_capacity_per_staff
  else if task.required_capacity_per_staff = 0 then
    .error .zeroDivisionError
  else
    .ok (max 1 ((task.customer_capacity + task.required_capacity_per_staff - 1) /
      task.required_capacity_per_staff))

/-- src/scheduler/validators.py, `tasks_overlap`. -/
def tasks_overlap (task1 task2 : Task) : Bool :=
  max task1.start task2.start < min task1.«end» task2.«end»

/-- Mathematical ceiling of `a / b` on naturals (for `b ≠ 0`), used to state
the specification formula `ceil(customer_capacity / required_capacity_per_staff)`. -/
def ceilNat (a b : Nat) : Nat :=
  a / b + (if a % b = 0 then 0 else 1)

theorem add_sub_one_div_eq_ceilNat (a b : Nat) (hb : b ≠ 0) :
    (a + b - 1) / b = ceilNat a b := by
  have hb0 : 0 < b := Nat.pos_of_ne_zero hb
  obtain ⟨q, r, hr, rfl⟩ : ∃ q r, r < b ∧ a = b * q + r :=
    ⟨a / b, a % b, Nat.mod_lt a hb0, (Nat.div_add_mod a b).symm⟩
  have hdiv : (b * q + r) / b = q := by
    rw [Nat.mul_add_div hb0, Nat.div_eq_of_lt hr, Nat.add_zero]
  have hmod : (b * q + r) % b = r := by
    rw [Nat.mul_add_mod, Nat.mod_eq_of_lt hr]
  rcases Nat.eq_zero_or_pos r with h0 | hpos
  · subst h0
    have h1 : b * q + 0 + b - 1 = b * q + (b - 1) := by omega
    rw [h1, Nat.mul_add_div hb0, Nat.div_eq_of_lt (by omega)]
    simp [ceilNat, hdiv, hmod, Nat.mul_div_cancel_left q hb0]
  · have h1 : b * q + r + b - 1 = b * (q + 1) + (r - 1) := by
      rw [Nat.mul_succ]; omega
    rw [h1, Nat.mul_add_div hb0, Nat.div_eq_of_lt (by omega)]
    have h2 : ¬ (b * q + r) % b = 0 := by omega
    simp [ceilNat, hdiv, h2]

/-- C3. `needed_staff` returns `required_capacity_per_staff` when
`customer_capacity = 0`, otherwise `max 1 ⌈customer_capacity /
required_capacity_per_staff⌉`, and the result is at least 1 whenever
`required_capacity_per_staff` is nonzero. -/
theorem needed_staff_spec (t : Task) :
    (t.customer_capacity = 0 → needed_staff t = .ok t.required_capacity_per_staff) ∧
    (t.customer_capacity ≠ 0 → t.required_capacity_per_staff ≠ 0 →
      needed_staff t = .ok (max 1 (ceilNat t.customer_capacity t.required_capacity_per_staff))) ∧
    (t.required_capacity_per_staff ≠ 0 → ∃ n, needed_staff t = .ok n ∧ 1 ≤ n) := by
  refine ⟨fun h0 => by simp [needed_staff, h0], fun h0 hr => ?_, fun hr => ?_⟩
  · rw [needed_staff, if_neg h0, if_neg hr,
      add_sub_one_div_eq_ceilNat t.customer_capacity t.required_capacity_per_staff hr]
  · rcases Nat.eq_zero_or_pos t.customer_capacity with h0 | h0
    · exact ⟨t.required_capacity_per_staff, by simp [needed_staff, h0], by omega⟩
    · refine ⟨max 1 ((t.customer_capacity + t.required_capacity_per_staff - 1) /
        t.required_capacity_per_staff), ?_, le_max_left 1 _⟩
      rw [needed_staff, if_neg (by omega), if_neg hr]

theorem needed_staff_spec_witness :
    needed_staff ⟨9, 0, 0, 4, [], 0, 24⟩ = .ok 4 ∧
    needed_staff ⟨12, 3, 30, 6, [1], 8, 16⟩ = .ok (max 1 (ceilNat 30 6)) ∧
    (∃ n, needed_staff ⟨12, 3, 30, 6, [1], 8, 16⟩ = .ok n ∧ 1 ≤ n) ∧
    ceilNat 30 6 = 5 :=
  ⟨(needed_staff_spec ⟨9, 0, 0, 4, [], 0, 24⟩).1 (by decide),
   (needed_staff_spec ⟨12, 3, 30, 6, [1], 8, 16⟩).2.1 (by decide) (by decide),
   (needed_staff_spec ⟨12, 3, 30, 6, [1], 8, 16⟩).2.2 (by decide), by decide⟩

/-- C6. On a non-vacation task (`customer_capacity ≠ 0`) whose
`required_capacity_per_staff` is zero, the code raises the bare
`ZeroDivisionError` of the `//` operator and not the `ConfigurationError`
that the specification prescribes. -/
theorem needed_staff_zero_divisor_raises_zero_division_error :
    needed_staff ⟨7, 3, 1, 0, [], 0, 1⟩ = .error .zeroDivisionError ∧
      PyError.zeroDivisionError ≠ PyError.configurationError :=
  ⟨rfl, by decide⟩

/-- The sort key of the fallback-fill ordering in
src/scheduler/core.py, `generate_schedule` (the `sorted(candidates, key=...)`
call): `(-preferences.index(category) if category in preferences else 999,
-denied_requests_60_days, previous_vacations_60_days)`. -/
def fairnessKey (task : Task) (e : Employee) : Int × Int × Int :=
  ((if task.category ∈ e.preferences then -(e.preferences.indexOf task.category : Int) else 999),
   -(e.denied_requests_60_days : Int),
   (e.previous_vacations_60_days : Int))

/-- Non-strict lexicographic order on integer triples, the order by which
Python compares the sort-key tuples. -/
def lexLe3 (a b : Int × Int × Int) : Prop :=
  a.1 < b.1 ∨ (a.1 = b.1 ∧ (a.2.1 < b.2.1 ∨ (a.2.1 = b.2.1 ∧ a.2.2 ≤ b.2.2)))

instance : DecidableRel lexLe3 := fun a b => by unfold lexLe3; infer_instance

/-- The candidate ordering used by the code: key-tuple comparison. -/
def fairnessLe (task : Task) (e1 e2 : Employee) : Prop :=
  lexLe3 (fairnessKey task e1) (fairnessKey task e2)

instance (task : Task) : DecidableRel (fairnessLe task) := fun a b => by
  unfold fairnessLe; infer_instance

instance (task : Task) : IsTotal Employee (fairnessLe task) :=
  ⟨fun a b => by unfold fairnessLe lexLe3; omega⟩

instance (task : Task) : IsTrans Employee (fairnessLe task) :=
  ⟨fun a b c h1 h2 => by unfold fairnessLe lexLe3 at *; omega⟩

/-- `sorted(candidates, key=...)` from src/scheduler/core.py: Python sorted is
the stable sort by the key order, i.e. insertion sort by `fairnessLe`. -/
def sortCandidates (task : Task) (candidates : List Employee) : List Employee :=
  List.insertionSort (fairnessLe task) candidates

theorem fairnessLe_of_key_eq (task : Task) {a b : Employee}
    (h : fairnessKey task a = fairnessKey task b) : fairnessLe task a b := by
  unfold fairnessLe; rw [h]; unfold lexLe3; omega

theorem key_ne_of_not_fairnessLe (task : Task) {x y : Employee}
    (h : ¬ fairnessLe task x y) : fairnessKey task y ≠ fairnessKey task x :=
  fun he => h (fairnessLe_of_key_eq task he.symm)

theorem orderedInsert_filter_key (t : Task) (x : Employee) (l : List Employee)
    (k : Int × Int × Int) :
    (List.orderedInsert (fairnessLe t) x l).filter (fun e => decide (fairnessKey t e = k)) =
      if fairnessKey t x = k then
        x :: l.filter (fun e => decide (fairnessKey t e = k))
      else l.filter (fun e => decide (fairnessKey t e = k)) := by
  induction l with
  | nil =>
    by_cases hk : fairnessKey t x = k <;>
      simp [List.orderedInsert, List.filter_cons, hk]
  | cons y ys ih =>
    rw [List.orderedInsert]
    by_cases hxy : fairnessLe t x y
    · rw [if_pos hxy]
      by_cases hk : fairnessKey t x = k <;> simp [List.filter_cons, hk]
    · rw [if_neg hxy]
      have hyx := key_ne_of_not_fairnessLe t hxy
      by_cases hk : fairnessKey t x = k
      · have hy : ¬ fairnessKey t y = k := by rw [← hk]; exact hyx
        simp [List.filter_cons, ih, hk, hy]
      · by_cases hy : fairnessKey t y = k <;>
          simp [List.filter_cons, ih, hk, hy]

theorem sortCandidates_filter_key (t : Task) (l : List Employee) (k : Int × Int × Int) :
    (sortCandidates t l).filter (fun e => decide (fairnessKey t e = k)) =
      l.filter (fun e => decide (fairnessKey t e = k)) := by
  induction l with
  | nil => rfl
  | cons x xs ih =>
    have hstep : sortCandidates t (x :: xs) =
        List.orderedInsert (fairnessLe t) x (sortCandidates t xs) := rfl
    rw [hstep, orderedInsert_filter_key]
    by_cases hk : fairnessKey t x = k <;>
      simp [List.filter_cons, hk, ih]

/-- C4 (amended). The fallback-fill candidate ordering is the stable sort of
the candidate list, ascending in the lexicographic key `(-(index of
task.category in preferences) if present else 999,
-denied_requests_60_days, previous_vacations_60_days)` — that is, descending
preference index with absence ranked last, then descending denied requests,
then ascending previous vacations — and employees whose keys tie keep their
relative order in the candidate list. -/
theorem sortCandidates_ordering (t : Task) (candidates : List Employee) :
    (sortCandidates t candidates).Perm candidates ∧
    List.Sorted (fairnessLe t) (sortCandidates t candidates) ∧
    (∀ k, (sortCandidates t candidates).filter (fun e => decide (fairnessKey t e = k)) =
      candidates.filter (fun e => decide (fairnessKey t e = k))) :=
  ⟨List.perm_insertionSort _ _, List.sorted_insertionSort _ _,
    fun k => sortCandidates_filter_key t candidates k⟩

/-- The ordering that the claim describes, as a key: ascending preference
index (absence = 999), descending denied requests, ascending previous
vacations, remaining ties by ascending employee id. -/
def claimedFairnessKey (task : Task) (e : Employee) : Int × Int × Int × Int :=
  ((if task.category ∈ e.preferences then (e.preferences.indexOf task.category : Int) else 999),
   -(e.denied_requests_60_days : Int),
   (e.previous_vacations_60_days : Int),
   (e.employee_id : Int))

/-- Non-strict lexicographic order on integer quadruples. -/
def lexLe4 (a b : Int × Int × Int × Int) : Prop :=
  a.1 < b.1 ∨ (a.1 = b.1 ∧ (a.2.1 < b.2.1 ∨ (a.2.1 = b.2.1 ∧
    (a.2.2.1 < b.2.2.1 ∨ (a.2.2.1 = b.2.2.1 ∧ a.2.2.2 ≤ b.2.2.2)))))

instance : DecidableRel lexLe4 := fun a b => by unfold lexLe4; infer_instance

/-- The candidate ordering the claim describes (a sort by
`claimedFairnessKey`; the id component makes it deterministic, so any sort by
it is the claimed order). -/
def claimedSort (task : Task) (candidates : List Employee) : List Employee :=
  List.insertionSort
    (fun e1 e2 => lexLe4 (claimedFairnessKey task e1) (claimedFairnessKey task e2)) candidates

/-- C4 counterexample. For the task of category 3 and the candidate list
`[E9, E3, E5]` below (E9 and E3 rank category 3 first and tie on every key;
E5 ranks it second), the code orders the list `[E5, E9, E3]`: the employee
with the larger preference index comes first (descending, not ascending,
index) and the tie between E9 and E3 stays in list order instead of being
broken by ascending employee id, so the order is not the claimed
`[E3, E9, E5]`. -/
theorem sortCandidates_differs_from_claimed_order :
    sortCandidates ⟨20, 3, 4, 1, [], 0, 8⟩
        [⟨9, "E9", [3], [], 0, 0, 0, 0, 0, 0, 0, 0⟩,
         ⟨3, "E3", [3], [], 0, 0, 0, 0, 0, 0, 0, 0⟩,
         ⟨5, "E5", [7, 3], [], 0, 0, 0, 0, 0, 0, 0, 0⟩] =
      [⟨5, "E5", [7, 3], [], 0, 0, 0, 0, 0, 0, 0, 0⟩,
       ⟨9, "E9", [3], [], 0, 0, 0, 0, 0, 0, 0, 0⟩,
       ⟨3, "E3", [3], [], 0, 0, 0, 0, 0, 0, 0, 0⟩] ∧
    claimedSort ⟨20, 3, 4, 1, [], 0, 8⟩
        [⟨9, "E9", [3], [], 0, 0, 0, 0, 0, 0, 0, 0⟩,
         ⟨3, "E3", [3], [], 0, 0, 0, 0, 0, 0, 0, 0⟩,
         ⟨5, "E5", [7, 3], [], 0, 0, 0, 0, 0, 0, 0, 0⟩] =
      [⟨3, "E3", [3], [], 0, 0, 0, 0, 0, 0, 0, 0⟩,
       ⟨9, "E9", [3], [], 0, 0, 0, 0, 0, 0, 0, 0⟩,
       ⟨5, "E5", [7, 3], [], 0, 0, 0, 0, 0, 0, 0, 0⟩] ∧
    ([⟨5, "E5", [7, 3], [], 0, 0, 0, 0, 0, 0, 0, 0⟩,
      ⟨9, "E9", [3], [], 0, 0, 0, 0, 0, 0, 0, 0⟩,
      ⟨3, "E3", [3], [], 0, 0, 0, 0, 0, 0, 0, 0⟩] : List Employee) ≠
     [⟨3, "E3", [3], [], 0, 0, 0, 0, 0, 0, 0, 0⟩,
      ⟨9, "E9", [3], [], 0, 0, 0, 0, 0, 0, 0, 0⟩,
      ⟨5, "E5", [7, 3], [], 0, 0, 0, 0, 0, 0, 0, 0⟩] := by
  refine ⟨by decide, by decide, by decide⟩

/-- The candidate filter of src/scheduler/core.py, `generate_schedule`:
`[e for e in employees if e.employee_id not in assigned_employees and
has_required_certs(e, task)]`. -/
def eligible_candidates (employees : List Employee) (assigned : List Nat)
    (task : Task) : List Employee :=
  employees.filter (fun e => !(assigned.contains e.employee_id) && has_required_certs e task)

/-- The suggestion-consumption loop of src/scheduler/core.py,
`generate_schedule`: for each suggested id, look it up in the (fixed)
candidate list with `next(...)` and append it to both `selected` and
`assigned_employees` when the selection is not yet full. -/
def selectPreferred (candidates : List Employee) (needed : Nat) :
    List Nat → List Nat → List Nat → List Nat × List Nat
  | [], sel, assigned => (sel, assigned)
  | empId :: rest, sel, assigned =>
    match candidates.find? (fun e => e.employee_id == empId) with
    | some emp =>
      if sel.length < needed then
        selectPreferred candidates needed rest (sel ++ [emp.employee_id])
          (assigned ++ [emp.employee_id])
      else selectPreferred candidates needed rest sel assigned
    | none => selectPreferred candidates needed rest sel assigned

/-- The fallback fill loop of src/scheduler/core.py, `generate_schedule`:
walk the fairness-sorted candidates, breaking when full and skipping
employees already in `assigned_employees`. -/
def fillFromRanked (needed : Nat) :
    List Employee → List Nat → List Nat → List Nat × List Nat
  | [], sel, assigned => (sel, assigned)
  | emp :: rest, sel, assigned =>
    if needed ≤ sel.length then (sel, assigned)
    else if assigned.contains emp.employee_id then
      fillFromRanked needed rest sel assigned
    else
      fillFromRanked needed rest (sel ++ [emp.employee_id]) (assigned ++ [emp.employee_id])

/-- The body of the per-task loop of src/scheduler/core.py,
`generate_schedule`, for one non-vacation task: compute `needed`, filter the
candidates, consume the oracle suggestions, fill from the ranked candidates. -/
def processTask (employees : List Employee) (suggested : Nat → List Nat)
    (task : Task) (assigned : List Nat) : Except PyError (List Nat × List Nat) :=
  match needed_staff task with
  | .error e => .error e
  | .ok needed =>
    let candidates := eligible_candidates employees assigned task
    let p1 := selectPreferred candidates needed (suggested task.task_id) [] assigned
    let p2 := fillFromRanked needed (sortCandidates task candidates) p1.1 p1.2
    .ok p2

/-- The per-task loop of src/scheduler/core.py, `generate_schedule`, over the
start-sorted task list, skipping the vacation task (`task_id == 0`) and
accumulating `(task_id, selected)` pairs and the committed-employee set. -/
def greedyLoop (employees : List Employee) (suggested : Nat → List Nat) :
    List Task → List (Nat × List Nat) → List Nat →
      Except PyError (List (Nat × List Nat) × List Nat)
  | [], sels, assigned => .ok (sels, assigned)
  | task :: rest, sels, assigned =>
    if task.task_id = 0 then greedyLoop employees suggested rest sels assigned
    else
      match processTask employees suggested task assigned with
      | .error e => .error e
      | .ok p => greedyLoop employees suggested rest (sels ++ [(task.task_id, p.1)]) p.2

/-- `sorted(tasks, key=lambda t: t.start)` of src/scheduler/core.py: the
stable sort of the task list by ascending start instant. -/
def startLe (t1 t2 : Task) : Prop := t1.start ≤ t2.start

instance : DecidableRel startLe := fun a b => by unfold startLe; infer_instance

def sortTasksByStart (tasks : List Task) : List Task :=
  List.insertionSort startLe tasks

/-- Reading the per-task selection out of the accumulated pairs; this is the
value of the Python `assignments` dictionary at `tid` (initialised to `[]`
for every task), assuming distinct task ids. -/
def lookupSelection (sels : List (Nat × List Nat)) (tid : Nat) : List Nat :=
  match sels.find? (fun p => p.1 == tid) with
  | some p => p.2
  | none => []

/-- src/scheduler/core.py, `generate_schedule`.  The oracle suggestion
dictionary (`get_grok_suggestion`, an external call) is a parameter, read as
Python reads it: `suggested.get(task.task_id, [])`.  `next(t for t in tasks
if t.task_id == 0)` raises `StopIteration` when no vacation task exists.  The
final dictionary iteration is modelled over the original task order, which
matches Python dictionary insertion order when task ids are distinct; the
vacation entry is reset to `[]` at the end, as in the code. -/
def generate_schedule (tasks : List Task) (employees : List Employee)
    (suggested : Nat → List Nat) (schedule_date : String) : Except PyError Schedule :=
  match tasks.find? (fun t => t.task_id == 0) with
  | none => .error .stopIteration
  | some _ =>
    match greedyLoop employees suggested (sortTasksByStart tasks) [] [] with
    | .error e => .error e
    | .ok p =>
      .ok ⟨schedule_date,
        tasks.map (fun t =>
          ⟨t.task_id, if t.task_id = 0 then [] else lookupSelection p.1 t.task_id⟩),
        ["AI-assisted scheduling with validation fallback"]⟩

/-- C5. With one certified candidate, a task needing two staff, and the
oracle suggesting the same employee id twice, the suggestion loop accepts the
duplicate — the candidate list is not refreshed and the selection is not
consulted — so employee 1 is selected twice for task 1, contradicting the
claim that duplicate suggestions are dropped and never cause a repeated
selection. -/
theorem duplicate_suggestion_selected_twice :
    generate_schedule
        [⟨0, 0, 0, 1, [], 0, 24⟩, ⟨1, 3, 2, 1, [], 1, 5⟩]
        [⟨1, "A", [], [], 0, 0, 0, 0, 0, 0, 0, 0⟩]
        (fun tid => if tid = 1 then [1, 1] else []) "2026-01-03" =
      .ok ⟨"2026-01-03", [⟨0, []⟩, ⟨1, [1, 1]⟩],
        ["AI-assisted scheduling with validation fallback"]⟩ ∧
    ¬ ([1, 1] : List Nat).Nodup :=
  ⟨rfl, by decide⟩

/-- Membership characterisation of the eligibility filter (helper shared by
several proofs). -/
theorem mem_eligible_candidates (employees : List Employee) (assigned : List Nat)
    (task : Task) (e : Employee) :
    e ∈ eligible_candidates employees assigned task ↔
      e ∈ employees ∧ e.employee_id ∉ assigned ∧ has_required_certs e task = true := by
  simp [eligible_candidates, List.mem_filter, and_assoc]

/-- C7 (amended). The eligibility filter keeps exactly the employees that are
not yet committed to any previously processed task — whether or not that
task overlaps the current one — and have every required certification; no
vacation-specific exclusion exists (the greedy path never commits anyone to
the vacation task). -/
theorem eligible_candidates_mem (employees : List Employee) (assigned : List Nat)
    (task : Task) (e : Employee) :
    e ∈ eligible_candidates employees assigned task ↔
      e ∈ employees ∧ e.employee_id ∉ assigned ∧ has_required_certs e task = true :=
  mem_eligible_candidates employees assigned task e

/-- C7 counterexample. Employee 1 is committed to task 1 (interval [0,10))
only; task 2 (interval [20,30)) does not overlap it and employee 1 holds
every certification task 2 requires, yet the filter excludes employee 1 from
the candidates of task 2, and in the generated schedule task 2 is left
unstaffed — the claim that an employee committed only to a non-overlapping
task remains a candidate fails. -/
theorem committed_nonoverlapping_employee_excluded :
    eligible_candidates [⟨1, "A", [], [], 0, 0, 0, 0, 0, 0, 0, 0⟩] [1]
        ⟨2, 3, 1, 1, [], 20, 30⟩ = [] ∧
    has_required_certs ⟨1, "A", [], [], 0, 0, 0, 0, 0, 0, 0, 0⟩
        ⟨2, 3, 1, 1, [], 20, 30⟩ = true ∧
    tasks_overlap ⟨1, 3, 1, 1, [], 0, 10⟩ ⟨2, 3, 1, 1, [], 20, 30⟩ = false ∧
    generate_schedule
        [⟨0, 0, 0, 1, [], 0, 24⟩, ⟨1, 3, 1, 1, [], 0, 10⟩, ⟨2, 3, 1, 1, [], 20, 30⟩]
        [⟨1, "A", [], [], 0, 0, 0, 0, 0, 0, 0, 0⟩]
        (fun _ => []) "2026-01-03" =
      .ok ⟨"2026-01-03", [⟨0, []⟩, ⟨1, [1]⟩, ⟨2, []⟩],
        ["AI-assisted scheduling with validation fallback"]⟩ :=
  ⟨rfl, rfl, rfl, rfl⟩

theorem selectPreferred_spec (cands : List Employee) (needed : Nat)
    (pref : List Nat) : ∀ (sel assigned sel' a' : List Nat),
    selectPreferred cands needed pref sel assigned = (sel', a') →
    ((∀ x ∈ sel, x ∈ sel') ∧ (∀ x ∈ assigned, x ∈ a') ∧
     (∀ x ∈ sel', x ∈ sel ∨ ∃ e, e ∈ cands ∧ e.employee_id = x) ∧
     (∀ x ∈ a', x ∈ assigned ∨ x ∈ sel') ∧
     ((∀ y ∈ sel, y ∈ assigned) → ∀ x ∈ sel', x ∈ a')) := by
  induction pref with
  | nil =>
    intro sel assigned sel' a' h
    rw [selectPreferred] at h
    cases h
    exact ⟨fun x hx => hx, fun x hx => hx, fun x hx => Or.inl hx,
      fun x hx => Or.inl hx, fun hs x hx => hs x hx⟩
  | cons empId rest ih =>
    intro sel assigned sel' a' h
    rw [selectPreferred] at h
    cases hf : cands.find? (fun e => e.employee_id == empId) with
    | none =>
      simp only [hf] at h
      exact ih sel assigned sel' a' h
    | some emp =>
      simp only [hf] at h
      by_cases hlt : sel.length < needed
      · rw [if_pos hlt] at h
        obtain ⟨ihsel, ihass, ihnew, ihanew, ihsub⟩ :=
          ih (sel ++ [emp.employee_id]) (assigned ++ [emp.employee_id]) sel' a' h
        refine ⟨fun x hx => ihsel x (List.mem_append_left _ hx),
          fun x hx => ihass x (List.mem_append_left _ hx), ?_, ?_, ?_⟩
        · intro x hx
          rcases ihnew x hx with hxs | he
          · rcases List.mem_append.mp hxs with h1 | h1
            · exact Or.inl h1
            · exact Or.inr ⟨emp, List.mem_of_find?_eq_some hf,
                (List.mem_singleton.mp h1).symm⟩
          · exact Or.inr he
        · intro x hx
          rcases ihanew x hx with hxa | hs
          · rcases List.mem_append.mp hxa with h1 | h1
            · exact Or.inl h1
            · exact Or.inr (ihsel x (List.mem_append_right _ h1))
          · exact Or.inr hs
        · intro hsub x hx
          refine ihsub (fun y hy => ?_) x hx
          rcases List.mem_append.mp hy with h1 | h1
          · exact List.mem_append_left _ (hsub y h1)
          · exact List.mem_append_right _ h1
      · rw [if_neg hlt] at h
        exact ih sel assigned sel' a' h

theorem fillFromRanked_spec (needed : Nat) (lst : List Employee) :
    ∀ (sel assigned sel' a' : List Nat),
    fillFromRanked needed lst sel assigned = (sel', a') →
    ((∀ x ∈ sel, x ∈ sel') ∧ (∀ x ∈ assigned, x ∈ a') ∧
     (∀ x ∈ sel', x ∈ sel ∨ (x ∉ assigned ∧ ∃ e, e ∈ lst ∧ e.employee_id = x)) ∧
     (∀ x ∈ a', x ∈ assigned ∨ x ∈ sel') ∧
     ((∀ y ∈ sel, y ∈ assigned) → ∀ x ∈ sel', x ∈ a')) := by
  induction lst with
  | nil =>
    intro sel assigned sel' a' h
    rw [fillFromRanked] at h
    cases h
    exact ⟨fun x hx => hx, fun x hx => hx, fun x hx => Or.inl hx,
      fun x hx => Or.inl hx, fun hs x hx => hs x hx⟩
  | cons emp rest ih =>
    intro sel assigned sel' a' h
    rw [fillFromRanked] at h
    by_cases hfull : needed ≤ sel.length
    · rw [if_pos hfull] at h
      cases h
      exact ⟨fun x hx => hx, fun x hx => hx, fun x hx => Or.inl hx,
        fun x hx => Or.inl hx, fun hs x hx => hs x hx⟩
    · rw [if_neg hfull] at h
      by_cases hc : assigned.contains emp.employee_id
      · rw [if_pos hc] at h
        obtain ⟨ihsel, ihass, ihnew, ihanew, ihsub⟩ := ih sel assigned sel' a' h
        refine ⟨ihsel, ihass, ?_, ihanew, ihsub⟩
        intro x hx
        rcases ihnew x hx with h1 | ⟨h1, e, he, hid⟩
        · exact Or.inl h1
        · exact Or.inr ⟨h1, e, List.mem_cons_of_mem _ he, hid⟩
      · rw [if_neg hc] at h
        have hnotmem : emp.employee_id ∉ assigned := by
          intro hmem
          exact hc (by simpa using hmem)
        obtain ⟨ihsel, ihass, ihnew, ihanew, ihsub⟩ :=
          ih (sel ++ [emp.employee_id]) (assigned ++ [emp.employee_id]) sel' a' h
        refine ⟨fun x hx => ihsel x (List.mem_append_left _ hx),
          fun x hx => ihass x (List.mem_append_left _ hx), ?_, ?_, ?_⟩
        · intro x hx
          rcases ihnew x hx with hxs | ⟨hna, e, he, hid⟩
          · rcases List.mem_append.mp hxs with h1 | h1
            · exact Or.inl h1
            · have hxe : x = emp.employee_id := List.mem_singleton.mp h1
              exact Or.inr ⟨hxe ▸ hnotmem, emp, List.mem_cons_self _ _, hxe.symm⟩
          · exact Or.inr ⟨fun hmem => hna (List.mem_append_left _ hmem), e,
              List.mem_cons_of_mem _ he, hid⟩
        · intro x hx
          rcases ihanew x hx with hxa | hs
          · rcases List.mem_append.mp hxa with h1 | h1
            · exact Or.inl h1
            · exact Or.inr (ihsel x (List.mem_append_right _ h1))
          · exact Or.inr hs
        · intro hsub x hx
          refine ihsub (fun y hy => ?_) x hx
          rcases List.mem_append.mp hy with h1 | h1
          · exact List.mem_append_left _ (hsub y h1)
          · exact List.mem_append_right _ h1

theorem processTask_spec (employees : List Employee) (suggested : Nat → List Nat)
    (task : Task) (assigned : List Nat) (sel a' : List Nat)
    (h : processTask employees suggested task assigned = .ok (sel, a')) :
    (∀ x ∈ sel, x ∉ assigned) ∧
    (∀ x ∈ sel, ∃ e, e ∈ employees ∧ e.employee_id = x ∧
      has_required_certs e task = true) ∧
    (∀ x ∈ assigned, x ∈ a') ∧
    (∀ x ∈ sel, x ∈ a') := by
  rw [processTask] at h
  cases hn : needed_staff task with
  | error e => simp [hn] at h
  | ok needed =>
    simp only [hn] at h
    obtain ⟨sp1, sp2, hsp⟩ : ∃ u v,
        selectPreferred (eligible_candidates employees assigned task) needed
          (suggested task.task_id) [] assigned = (u, v) := ⟨_, _, rfl⟩
    rw [hsp] at h
    have hfr : fillFromRanked needed
        (sortCandidates task (eligible_candidates employees assigned task)) sp1 sp2 =
        (sel, a') := by
      simpa using h
    obtain ⟨spsel, spass, spnew, spanew, spsub⟩ :=
      selectPreferred_spec _ needed _ [] assigned sp1 sp2 hsp
    obtain ⟨frsel, frass, frnew, franew, frsub⟩ :=
      fillFromRanked_spec needed _ sp1 sp2 sel a' hfr
    have hmem_sorted : ∀ e, e ∈ sortCandidates task
        (eligible_candidates employees assigned task) →
        e ∈ eligible_candidates employees assigned task := fun e he =>
      (List.perm_insertionSort (fairnessLe task) _).mem_iff.mp he
    have hsel_src : ∀ x ∈ sel,
        (∃ e, e ∈ eligible_candidates employees assigned task ∧ e.employee_id = x) ∨
        x ∉ sp2 := by
      intro x hx
      rcases frnew x hx with h1 | ⟨h1, _⟩
      · rcases spnew x h1 with h2 | h2
        · exact absurd h2 (List.not_mem_nil x)
        · exact Or.inl h2
      · exact Or.inr h1
    refine ⟨?_, ?_, fun x hx => frass x (spass x hx), ?_⟩
    · intro x hx hmem
      rcases hsel_src x hx with ⟨e, he, hid⟩ | h1
      · exact ((mem_eligible_candidates employees assigned task e).mp he).2.1 (hid ▸ hmem)
      · exact h1 (spass x hmem)
    · intro x hx
      rcases frnew x hx with h1 | ⟨_, e, he, hid⟩
      · rcases spnew x h1 with h2 | ⟨e, he, hid⟩
        · exact absurd h2 (List.not_mem_nil x)
        · have := (mem_eligible_candidates employees assigned task e).mp he
          exact ⟨e, this.1, hid, this.2.2⟩
      · have := (mem_eligible_candidates employees assigned task e).mp (hmem_sorted e he)
        exact ⟨e, this.1, hid, this.2.2⟩
    · intro x hx
      exact frsub (fun y hy => spsub (fun z hz => absurd hz (List.not_mem_nil z)) y hy) x hx

theorem greedyLoop_spec (employees : List Employee) (suggested : Nat → List Nat) :
    ∀ (ts : List Task) (sels : List (Nat × List Nat)) (assigned : List Nat)
      (sels' : List (Nat × List Nat)) (a' : List Nat),
    greedyLoop employees suggested ts sels assigned = .ok (sels', a') →
    ((∀ p ∈ sels', p ∈ sels ∨ ∃ t, t ∈ ts ∧ t.task_id = p.1 ∧
        ∀ x ∈ p.2, ∃ e, e ∈ employees ∧ e.employee_id = x ∧
          has_required_certs e t = true) ∧
     ((∀ p ∈ sels, ∀ x ∈ p.2, x ∈ assigned) →
       List.Pairwise (fun p q : Nat × List Nat => ∀ x, ¬(x ∈ p.2 ∧ x ∈ q.2)) sels →
       (List.Pairwise (fun p q : Nat × List Nat => ∀ x, ¬(x ∈ p.2 ∧ x ∈ q.2)) sels' ∧
        ∀ p ∈ sels', ∀ x ∈ p.2, x ∈ a'))) := by
  intro ts
  induction ts with
  | nil =>
    intro sels assigned sels' a' h
    rw [greedyLoop] at h
    cases h
    exact ⟨fun p hp => Or.inl hp, fun hall hpw => ⟨hpw, hall⟩⟩
  | cons t rest ih =>
    intro sels assigned sels' a' h
    rw [greedyLoop] at h
    by_cases h0 : t.task_id = 0
    · rw [if_pos h0] at h
      obtain ⟨ih1, ih2⟩ := ih sels assigned sels' a' h
      refine ⟨fun p hp => ?_, ih2⟩
      rcases ih1 p hp with h1 | ⟨t', ht', hrest⟩
      · exact Or.inl h1
      · exact Or.inr ⟨t', List.mem_cons_of_mem _ ht', hrest⟩
    · rw [if_neg h0] at h
      cases hp : processTask employees suggested t assigned with
      | error e => simp [hp] at h
      | ok p =>
        obtain ⟨psel, pass⟩ := p
        simp only [hp] at h
        obtain ⟨hfresh, hcert, hmono, hsub⟩ :=
          processTask_spec employees suggested t assigned psel pass hp
        obtain ⟨ih1, ih2⟩ := ih (sels ++ [(t.task_id, psel)]) pass sels' a' h
        constructor
        · intro q hq
          rcases ih1 q hq with h1 | ⟨t', ht', hid, hcq⟩
          · rcases List.mem_append.mp h1 with h2 | h2
            · exact Or.inl h2
            · have hqe : q = (t.task_id, psel) := List.mem_singleton.mp h2
              subst hqe
              exact Or.inr ⟨t, List.mem_cons_self _ _, rfl, hcert⟩
          · exact Or.inr ⟨t', List.mem_cons_of_mem _ ht', hid, hcq⟩
        · intro hall hpw
          have hall2 : ∀ q ∈ sels ++ [(t.task_id, psel)], ∀ x ∈ q.2, x ∈ pass := by
            intro q hq x hx
            rcases List.mem_append.mp hq with h1 | h1
            · exact hmono x (hall q h1 x hx)
            · have hqe : q = (t.task_id, psel) := List.mem_singleton.mp h1
              subst hqe
              exact hsub x hx
          have hpw2 : List.Pairwise
              (fun p q : Nat × List Nat => ∀ x, ¬(x ∈ p.2 ∧ x ∈ q.2))
              (sels ++ [(t.task_id, psel)]) := by
            rw [List.pairwise_append]
            refine ⟨hpw, List.pairwise_singleton _ _, ?_⟩
            intro q hq r hr
            have hre : r = (t.task_id, psel) := List.mem_singleton.mp hr
            subst hre
            intro x hx
            exact hfresh x hx.2 (hall q hq x hx.1)
          exact ih2 hall2 hpw2

theorem lookupSelection_mem (sels : List (Nat × List Nat)) (tid : Nat) (x : Nat)
    (h : x ∈ lookupSelection sels tid) :
    ∃ p, p ∈ sels ∧ p.1 = tid ∧ x ∈ p.2 := by
  rw [lookupSelection] at h
  cases hf : sels.find? (fun p => p.1 == tid) with
  | none => simp [hf] at h
  | some p =>
    simp only [hf] at h
    exact ⟨p, List.mem_of_find?_eq_some hf, by simpa using List.find?_some hf, h⟩

/-- Extracting the assignment list (the dictionary iteration) from a
successful greedy run. -/
theorem generate_schedule_ok_elim (tasks : List Task) (employees : List Employee)
    (suggested : Nat → List Nat) (date : String) (sched : Schedule)
    (h : generate_schedule tasks employees suggested date = .ok sched) :
    ∃ sels afin, greedyLoop employees suggested (sortTasksByStart tasks) [] [] =
        .ok (sels, afin) ∧
      sched.assignments = tasks.map (fun t =>
        ⟨t.task_id, if t.task_id = 0 then [] else lookupSelection sels t.task_id⟩) := by
  rw [generate_schedule] at h
  cases hvf : tasks.find? (fun t => t.task_id == 0) with
  | none => simp [hvf] at h
  | some tv =>
    simp only [hvf] at h
    cases hgl : greedyLoop employees suggested (sortTasksByStart tasks) [] [] with
    | error e => simp [hgl] at h
    | ok p =>
      obtain ⟨sels, afin⟩ := p
      simp only [hgl] at h
      cases h
      exact ⟨sels, afin, rfl, rfl⟩

/-- C1 (amended). In every schedule the greedy engine produces (for a task
list with distinct task ids, where the embedding coincides with the Python
dictionary semantics), no employee id appears in two assignments with
different task ids — in particular in no two assignments whose task
intervals overlap.  (The round-robin fallback does not have this property;
see the counterexample.) -/
theorem greedy_schedule_no_shared_employee (tasks : List Task)
    (employees : List Employee) (suggested : Nat → List Nat) (date : String)
    (sched : Schedule) (_hids : (tasks.map Task.task_id).Nodup)
    (h : generate_schedule tasks employees suggested date = .ok sched)
    (a1 a2 : SchedAssignment) (h1 : a1 ∈ sched.assignments)
    (h2 : a2 ∈ sched.assignments) (hne : a1.task_id ≠ a2.task_id) :
    ∀ x, x ∈ a1.employee_ids → x ∉ a2.employee_ids := by
  obtain ⟨sels, afin, hgl, hassign⟩ :=
    generate_schedule_ok_elim tasks employees suggested date sched h
  obtain ⟨-, hinv⟩ :=
    greedyLoop_spec employees suggested (sortTasksByStart tasks) [] [] sels afin hgl
  obtain ⟨hpw, -⟩ := hinv (by intro p hp; exact absurd hp (List.not_mem_nil p))
    List.Pairwise.nil
  rw [hassign] at h1 h2
  obtain ⟨t1, ht1, ha1⟩ := List.mem_map.mp h1
  obtain ⟨t2, ht2, ha2⟩ := List.mem_map.mp h2
  intro x hx1 hx2
  have hid1 : a1.task_id = t1.task_id := by rw [← ha1]
  have hid2 : a2.task_id = t2.task_id := by rw [← ha2]
  by_cases h01 : t1.task_id = 0
  · rw [← ha1] at hx1
    simp [h01] at hx1
  by_cases h02 : t2.task_id = 0
  · rw [← ha2] at hx2
    simp [h02] at hx2
  rw [← ha1] at hx1
  rw [← ha2] at hx2
  simp only [h01, h02, if_neg] at hx1 hx2
  obtain ⟨p1, hp1, hk1, hxp1⟩ := lookupSelection_mem sels t1.task_id x hx1
  obtain ⟨p2, hp2, hk2, hxp2⟩ := lookupSelection_mem sels t2.task_id x hx2
  have hpne : p1 ≠ p2 := by
    intro he
    apply hne
    rw [hid1, hid2, ← hk1, ← hk2, he]
  have hsym : Symmetric (fun p q : Nat × List Nat => ∀ x, ¬(x ∈ p.2 ∧ x ∈ q.2)) :=
    fun p q hpq y hy => hpq y ⟨hy.2, hy.1⟩
  exact hpw.forall hsym hp1 hp2 hpne x ⟨hxp1, hxp2⟩

theorem greedy_schedule_no_shared_employee_witness :
    (1 : Nat) ∉ ([2] : List Nat) :=
  greedy_schedule_no_shared_employee
    [⟨0, 0, 0, 1, [], 0, 24⟩, ⟨1, 3, 1, 1, [], 0, 5⟩, ⟨2, 3, 1, 1, [], 6, 9⟩]
    [⟨1, "A1", [], [], 0, 0, 0, 0, 0, 0, 0, 0⟩,
     ⟨2, "A2", [], [], 0, 0, 0, 0, 0, 0, 0, 0⟩]
    (fun _ => []) "2026-01-03"
    ⟨"2026-01-03", [⟨0, []⟩, ⟨1, [1]⟩, ⟨2, [2]⟩],
      ["AI-assisted scheduling with validation fallback"]⟩
    (by decide) rfl ⟨1, [1]⟩ ⟨2, [2]⟩ (by decide) (by decide) (by decide) 1 (by decide)

/-- The inner scan of src/scheduler/scheduler.py,
`Scheduler._create_fallback_schedule`: for `i in range(len(employees))` try
`employees[(employee_idx + i) % len(employees)]` and return the first offset
whose employee holds all required certifications.  The fourth argument is the
current offset `i`, the fifth the number of remaining tries. -/
def scanForCertified (employees : List Employee) (task : Task) (idx : Nat) :
    Nat → Nat → Option (Nat × Employee)
  | _, 0 => none
  | i, Nat.succ r =>
    match employees[(idx + i) % employees.length]? with
    | none => none
    | some emp =>
      if has_required_certs emp task then some (i, emp)
      else scanForCertified employees task idx (i + 1) r

/-- The task loop of src/scheduler/scheduler.py,
`Scheduler._create_fallback_schedule`: round-robin over employees, one
assignment (confidence 0.6) per task when a certified employee is found. -/
def fallbackLoop (employees : List Employee) :
    List Task → Nat → List Assignment → List Assignment
  | [], _, acc => acc
  | task :: rest, idx, acc =>
    match scanForCertified employees task idx 0 employees.length with
    | some p =>
      fallbackLoop employees rest ((idx + p.1 + 1) % employees.length)
        (acc ++ [⟨task.task_id, p.2.employee_id, p.2.name, 0.6⟩])
    | none => fallbackLoop employees rest idx acc

/-- src/scheduler/scheduler.py, `Scheduler._create_fallback_schedule`. -/
def create_fallback_schedule (employees : List Employee) (tasks : List Task) :
    List Assignment :=
  if employees.isEmpty || tasks.isEmpty then []
  else fallbackLoop employees tasks 0 []

theorem scanForCertified_spec (employees : List Employee) (task : Task) (idx : Nat) :
    ∀ (r i : Nat) (p : Nat × Employee),
    scanForCertified employees task idx i r = some p →
    p.2 ∈ employees ∧ has_required_certs p.2 task = true := by
  intro r
  induction r with
  | zero =>
    intro i p h
    rw [scanForCertified] at h
    simp at h
  | succ r ih =>
    intro i p h
    rw [scanForCertified] at h
    cases hg : employees[(idx + i) % employees.length]? with
    | none =>
      rw [hg] at h
      exact Option.noConfusion h
    | some emp =>
      simp only [hg] at h
      by_cases hc : has_required_certs emp task
      · rw [if_pos hc] at h
        cases h
        exact ⟨List.getElem?_mem hg, hc⟩
      · rw [if_neg hc] at h
        exact ih (i + 1) p h

theorem fallbackLoop_spec (employees : List Employee) :
    ∀ (tasks : List Task) (idx : Nat) (acc : List Assignment),
    ∀ a ∈ fallbackLoop employees tasks idx acc,
      a ∈ acc ∨ ∃ t, t ∈ tasks ∧ t.task_id = a.task_id ∧
        ∃ e, e ∈ employees ∧ e.employee_id = a.employee_id ∧
          has_required_certs e t = true := by
  intro tasks
  induction tasks with
  | nil =>
    intro idx acc a ha
    rw [fallbackLoop] at ha
    exact Or.inl ha
  | cons t rest ih =>
    intro idx acc a ha
    rw [fallbackLoop] at ha
    cases hs : scanForCertified employees t idx 0 employees.length with
    | none =>
      rw [hs] at ha
      rcases ih idx acc a ha with h1 | ⟨t2, ht2, h2⟩
      · exact Or.inl h1
      · exact Or.inr ⟨t2, List.mem_cons_of_mem _ ht2, h2⟩
    | some p =>
      rw [hs] at ha
      obtain ⟨hmem, hcert⟩ := scanForCertified_spec employees t idx _ _ p hs
      rcases ih _ _ a ha with h1 | ⟨t2, ht2, h2⟩
      · rcases List.mem_append.mp h1 with h2 | h2
        · exact Or.inl h2
        · have hae : a = ⟨t.task_id, p.2.employee_id, p.2.name, 0.6⟩ :=
            List.mem_singleton.mp h2
          subst hae
          exact Or.inr ⟨t, List.mem_cons_self _ _, rfl, p.2, hmem, rfl, hcert⟩
      · exact Or.inr ⟨t2, List.mem_cons_of_mem _ ht2, h2⟩

/-- Certification soundness of the greedy engine (helper). -/
theorem greedy_schedule_certified_aux (tasks : List Task)
    (employees : List Employee) (suggested : Nat → List Nat) (date : String)
    (sched : Schedule)
    (h : generate_schedule tasks employees suggested date = .ok sched) :
    ∀ a ∈ sched.assignments, ∀ x ∈ a.employee_ids,
      ∃ t, t ∈ tasks ∧ t.task_id = a.task_id ∧
        ∃ e, e ∈ employees ∧ e.employee_id = x ∧ has_required_certs e t = true := by
  obtain ⟨sels, afin, hgl, hassign⟩ :=
    generate_schedule_ok_elim tasks employees suggested date sched h
  obtain ⟨hsels, -⟩ :=
    greedyLoop_spec employees suggested (sortTasksByStart tasks) [] [] sels afin hgl
  intro a ha x hx
  rw [hassign] at ha
  obtain ⟨t0, ht0, ha0⟩ := List.mem_map.mp ha
  have hatid : a.task_id = t0.task_id := by rw [← ha0]
  by_cases h0 : t0.task_id = 0
  · rw [← ha0] at hx
    simp [h0] at hx
  · rw [← ha0] at hx
    simp only [if_neg h0] at hx
    obtain ⟨p, hp, hk, hxp⟩ := lookupSelection_mem sels t0.task_id x hx
    rcases hsels p hp with h1 | ⟨t, ht, hid, hcert⟩
    · exact absurd h1 (List.not_mem_nil p)
    · have htm : t ∈ tasks := (List.perm_insertionSort startLe tasks).mem_iff.mp ht
      obtain ⟨e, he, hide, hce⟩ := hcert x hxp
      exact ⟨t, htm, by rw [hid, hk, hatid], e, he, hide, hce⟩

/-- Certification soundness of the round-robin fallback (helper). -/
theorem fallback_schedule_certified_aux (employees : List Employee)
    (tasks : List Task) :
    ∀ a ∈ create_fallback_schedule employees tasks,
      ∃ t, t ∈ tasks ∧ t.task_id = a.task_id ∧
        ∃ e, e ∈ employees ∧ e.employee_id = a.employee_id ∧
          has_required_certs e t = true := by
  intro a ha
  rw [create_fallback_schedule] at ha
  by_cases hne : employees.isEmpty || tasks.isEmpty
  · rw [if_pos hne] at ha
    exact absurd ha (List.not_mem_nil a)
  · rw [if_neg hne] at ha
    rcases fallbackLoop_spec employees tasks 0 [] a ha with h1 | h1
    · exact absurd h1 (List.not_mem_nil a)
    · exact h1

/-- C2 (amended). Every assignment the greedy engine produces, and every
assignment the round-robin fallback produces, names an employee whose
certification set contains every certification the task requires; the
oracle-parsed path (`Scheduler._parse_assignments`) does not enforce this
(see the counterexample). -/
theorem generated_assignments_certified :
    (∀ (tasks : List Task) (employees : List Employee) (suggested : Nat → List Nat)
      (date : String) (sched : Schedule),
      generate_schedule tasks employees suggested date = .ok sched →
      ∀ a ∈ sched.assignments, ∀ x ∈ a.employee_ids,
        ∃ t, t ∈ tasks ∧ t.task_id = a.task_id ∧
          ∃ e, e ∈ employees ∧ e.employee_id = x ∧ has_required_certs e t = true) ∧
    (∀ (employees : List Employee) (tasks : List Task),
      ∀ a ∈ create_fallback_schedule employees tasks,
        ∃ t, t ∈ tasks ∧ t.task_id = a.task_id ∧
          ∃ e, e ∈ employees ∧ e.employee_id = a.employee_id ∧
            has_required_certs e t = true) :=
  ⟨greedy_schedule_certified_aux, fallback_schedule_certified_aux⟩

theorem generated_assignments_certified_witness :
    (∃ t, t ∈ [(⟨5, 3, 1, 1, [2], 0, 4⟩ : Task)] ∧
      t.task_id = (⟨5, 4, "B", 0.6⟩ : Assignment).task_id ∧
      ∃ e, e ∈ [(⟨4, "B", [], [2], 0, 0, 0, 0, 0, 0, 0, 0⟩ : Employee)] ∧
        e.employee_id = (⟨5, 4, "B", 0.6⟩ : Assignment).employee_id ∧
        has_required_certs e t = true) ∧
    (∃ t, t ∈ [(⟨0, 0, 0, 1, [], 0, 24⟩ : Task), ⟨1, 3, 1, 1, [], 0, 5⟩] ∧
      t.task_id = (⟨1, [1]⟩ : SchedAssignment).task_id ∧
      ∃ e, e ∈ [(⟨1, "A", [], [], 0, 0, 0, 0, 0, 0, 0, 0⟩ : Employee)] ∧
        e.employee_id = 1 ∧ has_required_certs e t = true) :=
  ⟨generated_assignments_certified.2
    [⟨4, "B", [], [2], 0, 0, 0, 0, 0, 0, 0, 0⟩] [⟨5, 3, 1, 1, [2], 0, 4⟩]
    ⟨5, 4, "B", 0.6⟩ (List.mem_singleton.mpr rfl),
   generated_assignments_certified.1
    [⟨0, 0, 0, 1, [], 0, 24⟩, ⟨1, 3, 1, 1, [], 0, 5⟩]
    [⟨1, "A", [], [], 0, 0, 0, 0, 0, 0, 0, 0⟩] (fun _ => []) "2026-01-03"
    ⟨"2026-01-03", [⟨0, []⟩, ⟨1, [1]⟩],
      ["AI-assisted scheduling with validation fallback"]⟩ rfl
    ⟨1, [1]⟩ (by decide) 1 (by decide)⟩

/-- C1 counterexample. With a single certified employee and two overlapping
tasks, the round-robin fallback assigns employee 1 to both: the employee
appears in two assignments (task ids 1 and 2) whose intervals [0,2) and
[1,3) overlap. -/
theorem fallback_double_books_overlapping_tasks :
    create_fallback_schedule [⟨1, "A", [], [], 0, 0, 0, 0, 0, 0, 0, 0⟩]
        [⟨1, 3, 1, 1, [], 0, 2⟩, ⟨2, 3, 1, 1, [], 1, 3⟩] =
      [⟨1, 1, "A", 0.6⟩, ⟨2, 1, "A", 0.6⟩] ∧
    tasks_overlap ⟨1, 3, 1, 1, [], 0, 2⟩ ⟨2, 3, 1, 1, [], 1, 3⟩ = true ∧
    (⟨1, 1, "A", 0.6⟩ : Assignment).employee_id =
      (⟨2, 1, "A", 0.6⟩ : Assignment).employee_id ∧
    (⟨1, 1, "A", 0.6⟩ : Assignment).task_id ≠ (⟨2, 1, "A", 0.6⟩ : Assignment).task_id :=
  ⟨rfl, rfl, rfl, by decide⟩

/-- One parsed element of the oracle response array consumed by
src/scheduler/scheduler.py, `Scheduler._parse_assignments`; absent dictionary
keys are `none`. -/
structure OracleItem where
  task_id : Option Nat := none
  employee_id : Option Nat := none
  employee_name : Option String := none
  confidence : Option ℚ := none
deriving Repr, DecidableEq

/-- The name-map lookup `employee_map.get(employee_id, "Unknown")` of
`Scheduler._parse_assignments`; the dictionary comprehension keeps the last
binding for a duplicated id, hence the reversed search. -/
def employeeName (employees : List Employee) (eid : Nat) : String :=
  match employees.reverse.find? (fun e => e.employee_id == eid) with
  | some e => e.name
  | none => "Unknown"

/-- The item loop of `Scheduler._parse_assignments`: items with both ids
present become assignments (confidence defaulting to 0.9), other items are
skipped; a pydantic validation error (confidence out of [0,1]) aborts the
whole parse into the `except` branch, modelled as `none`. -/
def buildAssignments (employees : List Employee) :
    List OracleItem → Option (List Assignment)
  | [] => some []
  | item :: rest =>
    match item.task_id, item.employee_id with
    | some tid, some eid =>
      let conf := item.confidence.getD 0.9
      if 0 ≤ conf ∧ conf ≤ 1 then
        match buildAssignments employees rest with
        | some tail =>
          some (⟨tid, eid, item.employee_name.getD (employeeName employees eid), conf⟩ :: tail)
        | none => none
      else none
    | _, _ => buildAssignments employees rest

/-- src/scheduler/scheduler.py, `Scheduler._parse_assignments`: `none` for a
response whose JSON extraction fails (the `except` branch returns `[]`); the
request is used only through its employee list. -/
def parse_assignments (items : Option (List OracleItem))
    (employees : List Employee) : List Assignment :=
  match items with
  | none => []
  | some its => (buildAssignments employees its).getD []

/-- C2 counterexample. The oracle-parsed path accepts the item
`(task_id 1, employee_id 42)` although employee 42 holds no certification
while task 1 requires certification 7: `_parse_assignments` never consults
the task list or `has_required_certs`, so the resulting assignment violates
certification closure. -/
theorem parse_assignments_unchecked_certs :
    parse_assignments (some [⟨some 1, some 42, none, none⟩])
        [⟨42, "U", [], [], 0, 0, 0, 0, 0, 0, 0, 0⟩] = [⟨1, 42, "U", 0.9⟩] ∧
    has_required_certs ⟨42, "U", [], [], 0, 0, 0, 0, 0, 0, 0, 0⟩
        ⟨1, 3, 1, 1, [7], 0, 4⟩ = false ∧
    (⟨1, 42, "U", 0.9⟩ : Assignment).employee_id =
      (⟨42, "U", [], [], 0, 0, 0, 0, 0, 0, 0, 0⟩ : Employee).employee_id := by
  refine ⟨?_, rfl, rfl⟩
  rw [parse_assignments, buildAssignments]
  norm_num [buildAssignments, employeeName]

/-- Parsed review payload consumed by src/scheduler/reviewer.py,
`Reviewer._parse_review`; absent keys are `none`. -/
structure ReviewData where
  approved : Option Bool := none
  quality_score : Option ℚ := none
  issues : List String := []
  improvements : List String := []

/-- src/scheduler/reviewer.py, `Reviewer._parse_review`: `none` stands for a
response whose JSON extraction or parsing raises; the pydantic range check on
`quality_score` happens inside the same `try`, so an out-of-range score also
lands in the `except` branch, which returns `approved=True,
quality_score=0.7`. -/
def parse_review (d : Option ReviewData) : ReviewResult :=
  match d with
  | none => ⟨true, 0.7, ["Parse error"], []⟩
  | some dat =>
    let q := dat.quality_score.getD 0.7
    if 0 ≤ q ∧ q ≤ 1 then ⟨dat.approved.getD true, q, dat.issues, dat.improvements⟩
    else ⟨true, 0.7, ["Parse error"], []⟩

/-- src/scheduler/reviewer.py, `Reviewer.review_schedule`: `.error e` is an
exception raised by the advisory call itself (the `except` branch returns
`approved=True, quality_score=0.5`); `.ok d` carries the parse outcome of the
returned text, handled by `_parse_review`. -/
def review_schedule (outcome : Except String (Option ReviewData)) : ReviewResult :=
  match outcome with
  | .error e => ⟨true, 0.5, ["Review error: " ++ e], []⟩
  | .ok d => parse_review d

/-- C9 counterexample. When the review call succeeds but its output cannot be
parsed, the returned result has `quality_score = 0.7`, not the claimed
`0.5`. -/
theorem parse_failure_review_score :
    (review_schedule (.ok none)).approved = true ∧
    (review_schedule (.ok none)).quality_score = 0.7 ∧ (0.7 : ℚ) ≠ 0.5 :=
  ⟨rfl, rfl, by norm_num⟩

/-- C9 (amended). When the review call itself fails the result is
`approved = true` with `quality_score = 0.5` exactly; when the call succeeds
but its output cannot be parsed (or carries an out-of-range score) the result
is `approved = true` with `quality_score = 0.7`. -/
theorem review_fallback_values :
    (∀ e : String, (review_schedule (.error e)).approved = true ∧
      (review_schedule (.error e)).quality_score = 0.5) ∧
    ((review_schedule (.ok none)).approved = true ∧
      (review_schedule (.ok none)).quality_score = 0.7) ∧
    (∀ dat : ReviewData,
      ¬ (0 ≤ dat.quality_score.getD 0.7 ∧ dat.quality_score.getD 0.7 ≤ 1) →
      (review_schedule (.ok (some dat))).approved = true ∧
        (review_schedule (.ok (some dat))).quality_score = 0.7) := by
  refine ⟨fun e => ⟨rfl, rfl⟩, ⟨rfl, rfl⟩, fun dat hq => ?_⟩
  simp [review_schedule, parse_review, hq]

theorem review_fallback_values_witness :
    (review_schedule (.ok (some ⟨none, some 2, [], []⟩))).approved = true ∧
      (review_schedule (.ok (some ⟨none, some 2, [], []⟩))).quality_score = 0.7 :=
  review_fallback_values.2.2 ⟨none, some 2, [], []⟩ (by norm_num)

/-- Parsed validation payload consumed by src/scheduler/lawyer.py,
`Lawyer._parse_validation`; absent keys are `none`. -/
structure ValidationData where
  is_valid : Option Bool := none
  violations : List String := []
  warnings : List String := []
  suggestions : List String := []

/-- src/scheduler/lawyer.py, `Lawyer._parse_validation`: `none` stands for a
response whose JSON extraction or parsing raises (the fail-open `except`
branch). -/
def parse_validation (d : Option ValidationData) : ValidationResult :=
  match d with
  | none => ⟨true, [], ["Could not parse validation"], []⟩
  | some dat => ⟨dat.is_valid.getD false, dat.violations, dat.warnings, dat.suggestions⟩

/-- src/scheduler/lawyer.py, `Lawyer.validate_constraints`: `.error e` is an
exception raised by the advisory call (its `except` branch), `.ok d` the
parse outcome of the returned text. -/
def validate_constraints (outcome : Except String (Option ValidationData)) : ValidationResult :=
  match outcome with
  | .error e => ⟨false, ["Validation error: " ++ e], ["Could not complete validation"], []⟩
  | .ok d => parse_validation d

/-- Task lookup by id (used by the spec-modelled baseline check). -/
def taskById (tasks : List Task) (tid : Nat) : Option Task :=
  tasks.find? (fun t => t.task_id == tid)

/-- Modelled from the spec: the local, deterministic, law-table-independent
baseline compliance check of invariants 1–4 (spec sections 3 and 4.5 —
certification closure, no overlapping double-booking, vacation exclusivity,
headcount bound) that the claim says `Lawyer.validate_constraints` falls
back to when the advisory service is unreachable.  No such check exists in
src/scheduler/lawyer.py, so this definition follows the words of the spec. -/
def baseline_is_valid (tasks : List Task) (employees : List Employee)
    (assignments : List Assignment) : Bool :=
  (assignments.all (fun a1 => assignments.all (fun a2 =>
    (a1.task_id == a2.task_id) || !(a1.employee_id == a2.employee_id) ||
      !(match taskById tasks a1.task_id, taskById tasks a2.task_id with
        | some t1, some t2 => tasks_overlap t1 t2
        | _, _ => false)))) &&
  (assignments.all (fun a1 => assignments.all (fun a2 =>
    !(a1.task_id == 0) || !(a1.employee_id == a2.employee_id) ||
      (a2.task_id == 0)))) &&
  (assignments.all (fun a => employees.all (fun e =>
    !(e.employee_id == a.employee_id) ||
      (match taskById tasks a.task_id with
       | some t => has_required_certs e t
       | none => true)))) &&
  (tasks.all (fun t =>
    match needed_staff t with
    | .ok n => (assignments.filter (fun a => a.task_id == t.task_id)).length ≤ n
    | .error _ => false))

/-- C8 counterexample. On an input whose (empty) assignment set satisfies
invariants 1–4 — so the spec-modelled baseline verdict is `is_valid = true`
— an unreachable advisory service makes `validate_constraints` return the
fixed verdict `is_valid = false` with the failure text propagated into
`violations`: the returned verdict is not produced by any local baseline
check of invariants 1–4. -/
theorem advisory_failure_not_baseline_verdict :
    (validate_constraints (.error "boom")).is_valid = false ∧
    (validate_constraints (.error "boom")).violations = ["Validation error: boom"] ∧
    baseline_is_valid [⟨1, 3, 1, 1, [], 0, 4⟩]
      [⟨1, "A", [], [], 0, 0, 0, 0, 0, 0, 0, 0⟩] [] = true :=
  ⟨rfl, rfl, by decide⟩

/-- C8 (amended). `Lawyer.validate_constraints` never throws (it is a total
function of the advisory outcome): when the advisory service is unreachable
it returns the fixed fail-closed verdict `is_valid = false` with the failure
message in `violations` and a warning — it performs no local baseline check
— and when the call succeeds the verdict is the parsed one. -/
theorem validate_constraints_error_path :
    (∀ e : String, validate_constraints (.error e) =
      ⟨false, ["Validation error: " ++ e], ["Could not complete validation"], []⟩) ∧
    (∀ d : Option ValidationData, validate_constraints (.ok d) = parse_validation d) :=
  ⟨fun _ => rfl, fun _ => rfl⟩

/-- src/scheduler/orchestrator.py, `Orchestrator._curate_response`. -/
def curate_response (assignments : List Assignment) (review : ReviewResult) :
    ScheduleResponse :=
  let warnings0 :=
    (if review.approved then [] else ["Schedule did not pass quality review"]) ++
      review.issues
  if review.quality_score < 0.7 then
    let filtered := assignments.filter (fun a => 0.5 ≤ a.confidence)
    let warnings1 :=
      if filtered.length < assignments.length then
        warnings0 ++ ["Filtered " ++ toString (assignments.length - filtered.length) ++
          " low-confidence assignments"]
      else warnings0
    ⟨filtered, review.quality_score, review.approved, warnings1,
      review.approved && !filtered.isEmpty⟩
  else
    ⟨assignments, review.quality_score, review.approved, warnings0,
      review.approved && !assignments.isEmpty⟩

/-- C10. Curation removes the assignments with confidence < 0.5 exactly when
the quality score is < 0.7, keeps every assignment with confidence ≥ 0.5,
and sets `success` to `approved AND the post-filter assignment list is
non-empty`. -/
theorem curate_response_spec (assignments : List Assignment) (review : ReviewResult) :
    (review.quality_score < 0.7 →
      (curate_response assignments review).assignments =
        assignments.filter (fun a => 0.5 ≤ a.confidence)) ∧
    (¬ review.quality_score < 0.7 →
      (curate_response assignments review).assignments = assignments) ∧
    (∀ a ∈ assignments, 0.5 ≤ a.confidence →
      a ∈ (curate_response assignments review).assignments) ∧
    ((curate_response assignments review).success =
      (review.approved && !(curate_response assignments review).assignments.isEmpty)) := by
  by_cases hq : review.quality_score < 0.7
  · refine ⟨fun _ => ?_, fun h => absurd hq h, fun a ha hc => ?_, ?_⟩
    · simp [curate_response, hq]
    · simp only [curate_response, if_pos hq]
      exact List.mem_filter.mpr ⟨ha, by simpa using hc⟩
    · simp [curate_response, hq]
  · refine ⟨fun h => absurd h hq, fun _ => ?_, fun a ha hc => ?_, ?_⟩
    · simp [curate_response, hq]
    · simpa [curate_response, hq] using ha
    · simp [curate_response, hq]

theorem curate_response_spec_witness :
    (curate_response [⟨1, 1, "N", 0.4⟩] ⟨true, 0.6, [], []⟩).assignments =
      [(⟨1, 1, "N", 0.4⟩ : Assignment)].filter (fun a => 0.5 ≤ a.confidence) ∧
    (curate_response [⟨1, 1, "N", 1⟩] ⟨true, 0.8, [], []⟩).assignments =
      [⟨1, 1, "N", 1⟩] ∧
    (⟨1, 1, "N", 1⟩ : Assignment) ∈
      (curate_response [⟨1, 1, "N", 1⟩] ⟨true, 0.8, [], []⟩).assignments :=
  ⟨(curate_response_spec [⟨1, 1, "N", 0.4⟩] ⟨true, 0.6, [], []⟩).1 (by norm_num),
   (curate_response_spec [⟨1, 1, "N", 1⟩] ⟨true, 0.8, [], []⟩).2.1 (by norm_num),
   (curate_response_spec [⟨1, 1, "N", 1⟩] ⟨true, 0.8, [], []⟩).2.2.1
     ⟨1, 1, "N", 1⟩ (List.mem_singleton.mpr rfl) (by norm_num)⟩

end StaffScheduler
